import Mathlib

/-!
Verification of the HumanSign event-chain construction and signing/verification
protocol against its JavaScript sources.

JavaScript strings are modelled as lists of characters (`Str`); byte buffers as
lists of naturals below 256.  Every definition mirrors one function of the
repository: the extension library (extension/lib/crypto.js, extension/lib/jws.js),
the background service worker (the inlined copies of the same utilities), the
chain class (lib/chain.js) and the Node verification script (verify.js).
-/

/-- JavaScript strings, modelled as lists of characters. -/
abbrev Str := List Char

/-- Character list of a Lean string literal. -/
def str (s : String) : Str := s.data

/-- The character with code 123, an opening curly brace. -/
def openBrace : Char := Char.ofNat 123

/-- The character with code 125, a closing curly brace. -/
def closeBrace : Char := Char.ofNat 125

/-- Decimal digits of a natural number, as JavaScript prints an integer. -/
def natStr (n : Nat) : Str := (Nat.repr n).data

/-- Lowercase hexadecimal digit for a value below 16. -/
def hexDigit (n : Nat) : Char := (str "0123456789abcdef").getD n '0'

/-- UTF-8 bytes of one character, the encoding used by TextEncoder and by
Node when hashing strings. -/
def utf8Char (c : Char) : List Nat :=
  let n := c.toNat
  if n < 128 then [n]
  else if n < 2048 then [192 + n / 64, 128 + n % 64]
  else if n < 65536 then [224 + n / 4096, 128 + n / 64 % 64, 128 + n % 64]
  else [240 + n / 262144, 128 + n / 4096 % 64, 128 + n / 64 % 64, 128 + n % 64]

/-- UTF-8 bytes of a string. -/
def utf8 (s : Str) : List Nat := (s.map utf8Char).flatten

/-! ## SHA-256

Model of the platform primitive used by the sources
(`crypto.subtle.digest` in the extension, `crypto.createHash` in Node):
the standard FIPS 180-4 SHA-256 over a byte list, hex output in lowercase,
matching `bufferToHex` / `digest('hex')`. -/

/-- Truncation to 32 bits. -/
def w32 (n : Nat) : Nat := n % 4294967296

/-- Rotate a 32-bit value right by `n` bits. -/
def rotr32 (n x : Nat) : Nat := w32 ((x >>> n) ||| (x <<< (32 - n)))

def sha256K : List Nat :=
  [1116352408, 1899447441, 3049323471, 3921009573, 961987163,
   1508970993, 2453635748, 2870763221, 3624381080, 310598401,
   607225278, 1426881987, 1925078388, 2162078206, 2614888103,
   3248222580, 3835390401, 4022224774, 264347078, 604807628,
   770255983, 1249150122, 1555081692, 1996064986, 2554220882,
   2821834349, 2952996808, 3210313671, 3336571891, 3584528711,
   113926993, 338241895, 666307205, 773529912, 1294757372,
   1396182291, 1695183700, 1986661051, 2177026350, 2456956037,
   2730485921, 2820302411, 3259730800, 3345764771, 3516065817,
   3600352804, 4094571909, 275423344, 430227734, 506948616,
   659060556, 883997877, 958139571, 1322822218, 1537002063,
   1747873779, 1955562222, 2024104815, 2227730452, 2361852424,
   2428436474, 2756734187, 3204031479, 3329325298]

def sha256H0 : List Nat :=
  [1779033703, 3144134277, 1013904242, 2773480762, 1359893119,
   2600822924, 528734635, 1541459225]

/-- Big-endian 8-byte encoding of a length in bits. -/
def be64 (n : Nat) : List Nat :=
  [n / 72057594037927936 % 256, n / 281474976710656 % 256, n / 1099511627776 % 256,
   n / 4294967296 % 256, n / 16777216 % 256, n / 65536 % 256, n / 256 % 256, n % 256]

/-- FIPS 180-4 padding: append 0x80, zeros to 56 mod 64, then the bit length. -/
def sha256Pad (msg : List Nat) : List Nat :=
  let z := (119 - msg.length % 64) % 64
  msg ++ 128 :: List.replicate z 0 ++ be64 (8 * msg.length)

/-- Big-endian 32-bit words of a byte list. -/
def toWords : List Nat → List Nat
  | a :: b :: c :: d :: rest => (((a * 256 + b) * 256 + c) * 256 + d) :: toWords rest
  | _ => []

/-- One message-schedule extension step. -/
def wExtend (w : List Nat) : List Nat :=
  let n := w.length
  let s0 := let x := w.getD (n - 15) 0; rotr32 7 x ^^^ rotr32 18 x ^^^ (x >>> 3)
  let s1 := let x := w.getD (n - 2) 0; rotr32 17 x ^^^ rotr32 19 x ^^^ (x >>> 10)
  w ++ [w32 (s1 + w.getD (n - 7) 0 + s0 + w.getD (n - 16) 0)]

/-- The 64-entry message schedule of one block. -/
def buildW (w16 : List Nat) : List Nat :=
  (List.range 48).foldl (fun w _ => wExtend w) w16

/-- One round of the compression function; the state is the eight working
variables, the argument is the round constant plus schedule word. -/
def sha256Round (s : List Nat) (kw : Nat) : List Nat :=
  match s with
  | [a, b, c, d, e, f, g, h] =>
      let ch := (e &&& f) ^^^ ((e ^^^ 4294967295) &&& g)
      let maj := (a &&& b) ^^^ (a &&& c) ^^^ (b &&& c)
      let bs0 := rotr32 2 a ^^^ rotr32 13 a ^^^ rotr32 22 a
      let bs1 := rotr32 6 e ^^^ rotr32 11 e ^^^ rotr32 25 e
      let t1 := w32 (h + bs1 + ch + kw)
      let t2 := w32 (bs0 + maj)
      [w32 (t1 + t2), a, b, c, w32 (d + t1), e, f, g]
  | _ => s

/-- Compression of one 64-byte block into the hash state. -/
def sha256Compress (hs : List Nat) (block : List Nat) : List Nat :=
  let ws := buildW (toWords block)
  let kws := (sha256K.zip ws).map (fun p => w32 (p.1 + p.2))
  let fin := kws.foldl sha256Round hs
  (hs.zip fin).map (fun p => w32 (p.1 + p.2))

/-- Iteration over the 64-byte blocks of a padded message.  The fuel argument
only bounds the number of iterations so the recursion is structural; callers
pass the message length, which always suffices since each step consumes 64
bytes. -/
def sha256Loop : Nat → List Nat → List Nat → List Nat
  | _, hs, [] => hs
  | 0, hs, _ => hs
  | fuel + 1, hs, bytes => sha256Loop fuel (sha256Compress hs (List.take 64 bytes)) (List.drop 64 bytes)

/-- Eight lowercase hex digits of a 32-bit word. -/
def hexWord (n : Nat) : Str :=
  [hexDigit (n / 268435456 % 16), hexDigit (n / 16777216 % 16),
   hexDigit (n / 1048576 % 16), hexDigit (n / 65536 % 16),
   hexDigit (n / 4096 % 16), hexDigit (n / 256 % 16),
   hexDigit (n / 16 % 16), hexDigit (n % 16)]

/-- SHA-256 of a byte list, as a lowercase hex string. -/
def sha256Hex (msg : List Nat) : Str :=
  let padded := sha256Pad msg
  ((sha256Loop padded.length sha256H0 padded).map hexWord).flatten

/-- SHA-256 of a string hashed through its UTF-8 bytes, exactly what both
`crypto.subtle.digest('SHA-256', new TextEncoder().encode(s))` and Node's
`createHash('sha256').update(s).digest('hex')` compute. -/
def sha256HexOfStr (s : Str) : Str := sha256Hex (utf8 s)

/-! ## Keystroke events and their JSON serialization

Events are the `[timestamp, eventType]` pairs pushed by `EventChain.addEvent`.
`jsStringifyEvents` is `JSON.stringify` applied to the events array exactly as
the library `computeBlockHash` (extension/lib/crypto.js line 43) and the Node
verifier (verify.js line 152) apply it: compact output, no whitespace,
array order preserved. -/

structure KEvent where
  ts : Nat
  ty : Str
deriving DecidableEq, Repr

/-- One escaped character of a JSON string literal, following the
`JSON.stringify` quoting rules. -/
def jsEscapeChar (c : Char) : Str :=
  if c = '"' then ['\\', '"']
  else if c = '\\' then ['\\', '\\']
  else if c = Char.ofNat 8 then ['\\', 'b']
  else if c = Char.ofNat 9 then ['\\', 't']
  else if c = Char.ofNat 10 then ['\\', 'n']
  else if c = Char.ofNat 12 then ['\\', 'f']
  else if c = Char.ofNat 13 then ['\\', 'r']
  else if c.toNat < 32 then str "\\u00" ++ [hexDigit (c.toNat / 16), hexDigit (c.toNat % 16)]
  else [c]

/-- JSON string literal for a string value, as `JSON.stringify` quotes it. -/
def jsQuote (s : Str) : Str := '"' :: (s.map jsEscapeChar).flatten ++ ['"']

/-- Comma-joined concatenation, the element separator of a JSON array. -/
def joinComma : List Str → Str
  | [] => []
  | [x] => x
  | x :: y :: rest => x ++ ',' :: joinComma (y :: rest)

/-- Compact JSON text of one `[timestamp, eventType]` pair. -/
def eventJson (e : KEvent) : Str := '[' :: natStr e.ts ++ ',' :: jsQuote e.ty ++ [']']

/-- `JSON.stringify(events)`: compact JSON of the events array, capture order
preserved.  This is the hash-input serialization of the library
`computeBlockHash` and of the Node verifier. -/
def jsStringifyEvents (evs : List KEvent) : Str :=
  '[' :: joinComma (evs.map eventJson) ++ [']']

/-- Model of `sortObjectKeys` (background worker lines 35-46): arrays are
mapped recursively and primitives returned unchanged, so on an array of
`[number, string]` pairs it is the identity. -/
def sortObjectKeysEvents (evs : List KEvent) : List KEvent := evs

/-- Does a character trigger the worker's space-insertion regexes?  The
character class `[\[\{"\d]` of background worker lines 57-58. -/
def spacingTrigger (c : Char) : Bool :=
  c = '[' || c = openBrace || c = '"' || c.isDigit

/-- One global-regex replacement pass of `pythonJsonStringify`: every
occurrence of `t` directly followed by a trigger character becomes `t` plus a
space (the lookahead does not consume the trigger). -/
def replaceAfter (t : Char) : Str → Str
  | [] => []
  | [c] => [c]
  | c :: d :: rest =>
      if c = t && spacingTrigger d then c :: ' ' :: replaceAfter t (d :: rest)
      else c :: replaceAfter t (d :: rest)

/-- `pythonJsonStringify` (background worker lines 52-59): compact
`JSON.stringify` output postprocessed by the comma pass then the colon pass. -/
def pythonJsonStringify (evs : List KEvent) : Str :=
  replaceAfter ':' (replaceAfter ',' (jsStringifyEvents evs))

/-! ## The three block-hash implementations -/

/-- Hash input of `computeBlockHash` in extension/lib/crypto.js (lines 39-48):
`prevHash + JSON.stringify(events)`. -/
def libBlockHashInput (prevHash : Str) (evs : List KEvent) : Str :=
  prevHash ++ jsStringifyEvents evs

/-- `computeBlockHash` of extension/lib/crypto.js. -/
def libComputeBlockHash (prevHash : Str) (evs : List KEvent) : Str :=
  sha256HexOfStr (libBlockHashInput prevHash evs)

/-- Hash input of `computeBlockHash` in the background worker (lines 61-71):
`prevHash + pythonJsonStringify(sortObjectKeys(events))`. -/
def workerBlockHashInput (prevHash : Str) (evs : List KEvent) : Str :=
  prevHash ++ pythonJsonStringify (sortObjectKeysEvents evs)

/-- `computeBlockHash` of the background worker. -/
def workerComputeBlockHash (prevHash : Str) (evs : List KEvent) : Str :=
  sha256HexOfStr (workerBlockHashInput prevHash evs)

/-- Hash input recomputed by the Node verifier (verify.js lines 150-155):
`prevHash + JSON.stringify(block.events)`. -/
def verifierBlockHashInput (prevHash : Str) (evs : List KEvent) : Str :=
  prevHash ++ jsStringifyEvents evs

/-- The block hash the Node verifier recomputes for one block. -/
def verifierComputeBlockHash (prevHash : Str) (evs : List KEvent) : Str :=
  sha256HexOfStr (verifierBlockHashInput prevHash evs)

/-! ## Blocks and the EventChain accumulator (lib/chain.js, worker lines 160-235) -/

structure Block where
  events : List KEvent
  prev_hash : Str
  block_hash : Str
deriving DecidableEq, Repr

structure EventChain where
  blocks : List Block
  currentEvents : List KEvent
  previousHash : Str
  eventCount : Nat
deriving DecidableEq, Repr

/-- The state built by the `EventChain` constructor. -/
def EventChain.init : EventChain :=
  { blocks := [], currentEvents := [], previousHash := str "GENESIS", eventCount := 0 }

/-- `addEvent(timestamp, eventType)`: push onto `currentEvents`, increment
`eventCount`. -/
def EventChain.addEvent (c : EventChain) (ts : Nat) (ty : Str) : EventChain :=
  { c with currentEvents := c.currentEvents ++ [⟨ts, ty⟩], eventCount := c.eventCount + 1 }

def EventChain.getPendingCount (c : EventChain) : Nat := c.currentEvents.length

def EventChain.getTotalCount (c : EventChain) : Nat := c.eventCount

/-- `sealBlock()` (lib/chain.js lines 44-63): a no-op returning `null` when
nothing is pending; otherwise it builds the block from the pending events and
the rolling hash, appends it, advances `previousHash` and clears the pending
list.  The hash function is passed explicitly: the library chain imports the
library `computeBlockHash`, the worker copy closes over the worker one. -/
def EventChain.sealBlock (hashFn : Str → List KEvent → Str) (c : EventChain) :
    EventChain × Option Block :=
  if c.currentEvents = [] then (c, none)
  else
    let blockHash := hashFn c.previousHash c.currentEvents
    let b : Block := ⟨c.currentEvents, c.previousHash, blockHash⟩
    ({ blocks := c.blocks ++ [b], currentEvents := [], previousHash := blockHash,
       eventCount := c.eventCount }, some b)

/-- `finalize()`: one more `sealBlock`, then the full block list. -/
def EventChain.finalize (hashFn : Str → List KEvent → Str) (c : EventChain) :
    EventChain × List Block :=
  let s := EventChain.sealBlock hashFn c
  (s.1, s.1.blocks)

def EventChain.getChain (c : EventChain) : List Block := c.blocks

/-- `reset()`: back to the initial state. -/
def EventChain.reset (_c : EventChain) : EventChain := EventChain.init

/-- The plain object produced by `toJSON()` (lib/chain.js lines 94-101). -/
structure ChainState where
  blocks : List Block
  currentEvents : List KEvent
  previousHash : Str
  eventCount : Nat
deriving DecidableEq, Repr

def EventChain.toJSON (c : EventChain) : ChainState :=
  ⟨c.blocks, c.currentEvents, c.previousHash, c.eventCount⟩

/-- `fromJSON(data)` (lib/chain.js lines 106-113).  Each field is restored
with a JavaScript `||` default.  On the field types produced by `toJSON` the
defaults act as follows: arrays (even empty ones) are truthy, so
`data.blocks || []` and `data.currentEvents || []` are the identity;
`data.eventCount || 0` maps 0 to 0, again the identity; but the empty string
is falsy, so `data.previousHash || "GENESIS"` rewrites an empty
`previousHash` to `"GENESIS"`. -/
def EventChain.fromJSON (d : ChainState) : EventChain :=
  { blocks := d.blocks, currentEvents := d.currentEvents,
    previousHash := if d.previousHash = [] then str "GENESIS" else d.previousHash,
    eventCount := d.eventCount }

/-! ## The Node verifier's blockchain loop (verify.js lines 146-177) -/

/-- The loop body over the remaining blocks; `prevOpt` carries the previous
block's `block_hash` (`none` at index 0, where the loop performs no link
check).  For each block the recomputed hash is compared first, then for
index `i > 0` the link `block.prev_hash == chain[i-1].block_hash`; the loop
short-circuits at the first failure.  No check against `"GENESIS"` appears
anywhere in the loop. -/
def verifyBlocksFrom (prevOpt : Option Str) : List Block → Bool
  | [] => true
  | b :: rest =>
      if verifierComputeBlockHash b.prev_hash b.events ≠ b.block_hash then false
      else
        match prevOpt with
        | some ph => if b.prev_hash ≠ ph then false else verifyBlocksFrom (some b.block_hash) rest
        | none => verifyBlocksFrom (some b.block_hash) rest

/-- `blockValid` after the loop of verify.js lines 146-169. -/
def verifyBlockchain (chain : List Block) : Bool := verifyBlocksFrom none chain

/-- The final verdict of verify.js line 180: `isValid && blockValid`.
`sigValid` abstracts the RSA signature check, which is independent of the
chain contents. -/
def verificationPassed (sigValid : Bool) (chain : List Block) : Bool :=
  sigValid && verifyBlockchain chain

/-! ## Base64url framing (extension/lib/crypto.js lines 53-70, worker lines 73-89) -/

/-- The base64 alphabet in emission order. -/
def b64Tbl : Str := str "ABCDEFGHIJKLMNOPQRSTUVWXYZabcdefghijklmnopqrstuvwxyz0123456789+/"

/-- Character for a 6-bit group. -/
def enc64 (n : Nat) : Char := b64Tbl.getD n 'A'

/-- Standard base64 of a byte list, with `=` padding, as `btoa` emits it. -/
def base64Encode : List Nat → Str
  | [] => []
  | [a] => [enc64 (a / 4), enc64 (a % 4 * 16), '=', '=']
  | [a, b] => [enc64 (a / 4), enc64 (a % 4 * 16 + b / 16), enc64 (b % 16 * 4), '=']
  | a :: b :: c :: rest =>
      enc64 (a / 4) :: enc64 (a % 4 * 16 + b / 16) :: enc64 (b % 16 * 4 + c / 64) ::
        enc64 (c % 64) :: base64Encode rest

/-- `btoa`: defined only on strings of code points at or below 255 (it throws
an `InvalidCharacterError` otherwise), where it base64-encodes the code
points. -/
def btoa (s : Str) : Except Unit Str :=
  if s.all (fun c => c.toNat ≤ 255) then .ok (base64Encode (s.map Char.toNat))
  else .error ()

/-- The url-safe character substitution `+` to `-` and `/` to `_`. -/
def urlSafeChar (c : Char) : Char :=
  if c = '+' then '-' else if c = '/' then '_' else c

/-- Strip the trailing `=` padding (the `/=+$/` replacement). -/
def stripEq (s : Str) : Str := (s.reverse.dropWhile (fun c => c = '=')).reverse

/-- The common postprocessing of both `base64UrlEncode` variants: url-safe
substitution then padding strip. -/
def b64Url (s : Str) : Str := stripEq (s.map urlSafeChar)

/-- The string branch of the library `base64UrlEncode` (extension/lib/crypto.js
lines 53-56): `btoa(data)` applied directly, so it fails on any code point
above 255. -/
def libB64uStr (s : Str) : Except Unit Str := (btoa s).map b64Url

/-- The ArrayBuffer branch of both `base64UrlEncode` variants: each byte
becomes one character via `String.fromCharCode`, then `btoa`; total on
bytes. -/
def b64uBytes (bs : List Nat) : Str := b64Url (base64Encode bs)

/-- The string branch of the worker `base64UrlEncode` (worker line 76):
`btoa(unescape(encodeURIComponent(data)))`, i.e. the UTF-8 bytes of the
string re-read as code points at or below 255, so `btoa` always succeeds. -/
def workerB64uStr (s : Str) : Str := b64Url (base64Encode (utf8 s))

/-! ## Token payload serialization (jws.js / worker `createHumanSignPayload`) -/

/-- The signed payload object, field order as constructed by
`createHumanSignPayload`. -/
structure Payload where
  subject : Str
  sessionIndex : Nat
  rep : Nat
  document_hash : Str
  chain : List Block
  iat : Nat
deriving DecidableEq, Repr

/-- Compact `JSON.stringify` of one block object, key order `events`,
`prev_hash`, `block_hash` as in the `sealBlock` literal. -/
def blockJson (b : Block) : Str :=
  openBrace :: str "\"events\":" ++ jsStringifyEvents b.events ++
  ',' :: str "\"prev_hash\":" ++ jsQuote b.prev_hash ++
  ',' :: str "\"block_hash\":" ++ jsQuote b.block_hash ++ [closeBrace]

/-- Compact `JSON.stringify` of the chain array. -/
def chainJson (chain : List Block) : Str :=
  '[' :: joinComma (chain.map blockJson) ++ [']']

/-- `JSON.stringify(payload)`: compact, key order as inserted by
`createHumanSignPayload`. -/
def payloadJson (p : Payload) : Str :=
  openBrace :: str "\"subject\":" ++ jsQuote p.subject ++
  ',' :: str "\"sessionIndex\":" ++ natStr p.sessionIndex ++
  ',' :: str "\"rep\":" ++ natStr p.rep ++
  ',' :: str "\"document_hash\":" ++ jsQuote p.document_hash ++
  ',' :: str "\"chain\":" ++ chainJson p.chain ++
  ',' :: str "\"iat\":" ++ natStr p.iat ++ [closeBrace]

/-- `JSON.stringify` of the fixed JWS header object. -/
def headerJson : Str :=
  openBrace :: str "\"alg\":\"RS256\",\"typ\":\"JWT\"" ++ [closeBrace]

/-! ## JWS creation (extension/lib/jws.js lines 14-43, worker lines 123-143) -/

/-- `createJWS` of extension/lib/jws.js.  The RSA signing primitive is
abstracted as `sign`, a function from the signing-input bytes (what
`new TextEncoder().encode(signingInput)` passes to `crypto.subtle.sign`)
to the raw signature bytes; key import is modelled separately.  The result
is an error when the library `base64UrlEncode` throws. -/
def libCreateJWS (sign : List Nat → List Nat) (p : Payload) : Except Unit Str :=
  match libB64uStr headerJson, libB64uStr (payloadJson p) with
  | .ok eh, .ok ep =>
      let signingInput := eh ++ '.' :: ep
      let sigBytes := sign (utf8 signingInput)
      .ok (signingInput ++ '.' :: b64uBytes sigBytes)
  | .error e, _ => .error e
  | _, .error e => .error e

/-- `createJWS` of the background worker (lines 123-143): same structure, but
key import throws unless the key is PKCS#8 (`keyOk`), the encoder is the
UTF-8-aware worker `base64UrlEncode`, and the signing primitive may fail. -/
def workerCreateJWS (keyOk : Bool) (sign : List Nat → Except Str (List Nat)) (p : Payload) :
    Except Str Str :=
  if !keyOk then .error (str "Invalid private key format. Please use PKCS8 format.")
  else
    let eh := workerB64uStr headerJson
    let ep := workerB64uStr (payloadJson p)
    let signingInput := eh ++ '.' :: ep
    match sign (utf8 signingInput) with
    | .error e => .error e
    | .ok sigBytes => .ok (signingInput ++ '.' :: b64uBytes sigBytes)

/-! ## Token splitting and the verifier's signing input (verify.js lines 53-60, 104-106) -/

/-- `String.prototype.split(sep)` for a single-character separator. -/
def jsSplit (sep : Char) : Str → List Str
  | [] => [[]]
  | c :: rest =>
      let r := jsSplit sep rest
      if c = sep then [] :: r
      else
        match r with
        | [] => [[c]]
        | h :: t => (c :: h) :: t

/-- The signing input the Node verifier recomputes (verify.js line 106):
`header64 + '.' + payload64` from the as-received token segments. -/
def verifierSigningInput (parts : List Str) : Str :=
  parts.getD 0 [] ++ '.' :: parts.getD 1 []

/-! ## Private key import (extension/lib/crypto.js lines 77-144, worker lines 91-117) -/

/-- The byte layout of `wrapPKCS1inPKCS8` (extension/lib/crypto.js lines
118-144): the 26-byte PKCS#8 RSA header with its two 16-bit length fields
patched, followed by the PKCS#1 bytes. -/
def wrapPKCS1inPKCS8 (pkcs1 : List Nat) : List Nat :=
  let totalLen := 26 + pkcs1.length - 4
  let keyLen := pkcs1.length
  [0x30, 0x82, totalLen / 256 % 256, totalLen % 256,
   0x02, 0x01, 0x00,
   0x30, 0x0d, 0x06, 0x09, 0x2a, 0x86, 0x48, 0x86, 0xf7, 0x0d, 0x01, 0x01, 0x01, 0x05, 0x00,
   0x04, 0x82, keyLen / 256 % 256, keyLen % 256] ++ pkcs1

/-- Stand-in for the platform's `crypto.subtle.importKey('pkcs8', ...)`
acceptance test: the DER bytes carry the PKCS#8 rsaEncryption
AlgorithmIdentifier after the version field.  The wrapped output of
`wrapPKCS1inPKCS8` satisfies it; raw PKCS#1 bytes do not. -/
def isPkcs8Rsa (bs : List Nat) : Bool :=
  decide ((bs.drop 7).take 15 =
    [0x30, 0x0d, 0x06, 0x09, 0x2a, 0x86, 0x48, 0x86, 0xf7, 0x0d, 0x01, 0x01, 0x01, 0x05, 0x00])

/-- `importPrivateKey` of extension/lib/crypto.js (lines 77-113) after PEM
decoding, parameterized by the platform acceptance test `importOk`: try
PKCS#8; on failure, silently wrap the bytes as PKCS#8 and try again. -/
def libImportPrivateKey (importOk : List Nat → Bool) (bytes : List Nat) :
    Except Str (List Nat) :=
  if importOk bytes then .ok bytes
  else
    let wrapped := wrapPKCS1inPKCS8 bytes
    if importOk wrapped then .ok wrapped
    else .error (str "import failed")

/-- `importPrivateKey` of the background worker (lines 91-117): try PKCS#8;
on failure, throw a key-format error without attempting any repair. -/
def workerImportPrivateKey (importOk : List Nat → Bool) (bytes : List Nat) :
    Except Str (List Nat) :=
  if importOk bytes then .ok bytes
  else .error (str "Invalid private key format. Please use PKCS8 format.")

/-! ## The seal-and-sign flow (worker `sealDocument`, lines 503-558) -/

/-- The value `sealDocument` resolves with (minus the generated filename). -/
structure SealResult where
  token : Str
  eventCount : Nat
  blockCount : Nat
  documentHash : Str
deriving DecidableEq, Repr

/-- All events a chain state holds, sealed blocks first, pending events
last — the retryable content of a session. -/
def EventChain.allEvents (c : EventChain) : List KEvent :=
  (c.blocks.map Block.events).flatten ++ c.currentEvents

/-- `sealDocument` of the background worker.  `hasKey` is whether
`privateKey` is loaded, `keyOk`/`sign` parameterize `createJWS` as above;
the chrome download of the token file is an external effect outside the
model.  The function returns the outcome together with the chain state it
leaves behind: the chain is sealed first (`sealCurrentBlock`), every failure
is thrown to the caller with that state kept, and `eventChain.reset()` runs
only on the success path after the token exists. -/
def sealDocument (hasKey keyOk : Bool) (sign : List Nat → Except Str (List Nat))
    (doc : Str) (subject : Str) (sessionIndex rep iat : Nat) (c : EventChain) :
    Except Str SealResult × EventChain :=
  if !hasKey then
    (.error (str "Private key not found. Please ensure keys/private.pem exists."), c)
  else
    let c1 := (EventChain.sealBlock workerComputeBlockHash c).1
    let chain := c1.getChain
    if chain = [] then
      (.error (str "No keystroke events recorded. Please type something first."), c1)
    else
      let documentHash := sha256HexOfStr doc
      let p : Payload := ⟨subject, sessionIndex, rep, documentHash, chain, iat⟩
      match workerCreateJWS keyOk sign p with
      | .error e => (.error e, c1)
      | .ok jws =>
          let eventCount := (chain.map (fun b => b.events.length)).sum
          (.ok ⟨jws, eventCount, chain.length, documentHash⟩, EventChain.reset c1)

/-! ## Linkage predicates and concrete data used by the theorems -/

/-- The chain-linkage predicate from rolling hash `ph`: each block's
`prev_hash` equals the hash the chain carried when it was sealed. -/
def linkedFrom (ph : Str) : List Block → Prop
  | [] => True
  | b :: rest => b.prev_hash = ph ∧ linkedFrom b.block_hash rest

/-- The rolling hash after a block list: the last `block_hash`, or the
starting value for an empty list. -/
def chainTip (ph : Str) : List Block → Str
  | [] => ph
  | b :: rest => chainTip b.block_hash rest

/-- A block used only as the `getD` fallback in index-wise statements. -/
def dBlock : Block := ⟨[], [], []⟩

/-- States of the accumulator reachable from the constructor state by the
four mutating operations named in the chain lifecycle. -/
inductive Reachable (hashFn : Str → List KEvent → Str) : EventChain → Prop
  | initStep : Reachable hashFn EventChain.init
  | addStep (ts : Nat) (ty : Str) {c : EventChain} :
      Reachable hashFn c → Reachable hashFn (c.addEvent ts ty)
  | sealStep {c : EventChain} :
      Reachable hashFn c → Reachable hashFn (EventChain.sealBlock hashFn c).1
  | finStep {c : EventChain} :
      Reachable hashFn c → Reachable hashFn (EventChain.finalize hashFn c).1
  | resetStep {c : EventChain} :
      Reachable hashFn c → Reachable hashFn (EventChain.reset c)

/-- The inductive invariant: blocks are linked from `"GENESIS"` and
`previousHash` is the rolling tip. -/
def chainInv (c : EventChain) : Prop :=
  linkedFrom (str "GENESIS") c.blocks ∧ c.previousHash = chainTip (str "GENESIS") c.blocks

/-- Adjacent linkage of a block list: each block's `prev_hash` equals its
predecessor's `block_hash` (no condition on the first block). -/
def pairwiseLinked : List Block → Prop
  | [] => True
  | [_] => True
  | a :: b :: rest => b.prev_hash = a.block_hash ∧ pairwiseLinked (b :: rest)

/-- A self-consistent single-block chain whose first `prev_hash` is `"X"`
rather than `"GENESIS"`; its `block_hash` is the SHA-256 the Node verifier
recomputes for it. -/
def c2Block : Block :=
  ⟨[⟨1000, str "keydown"⟩], str "X",
    str "668ee0fa0800d04549f33bda8c9b74dfea0e0037a22836edc25e4401c9b697a6"⟩

/-- Concrete state with one pending event, for the sealing witnesses. -/
def oneEventState : EventChain := EventChain.init.addEvent 1000 (str "keydown")

/-- Opening bytes of a PKCS#1 RSA private key DER (SEQUENCE, version 0,
modulus INTEGER header): rejected by the platform's PKCS#8 acceptance test. -/
def pkcs1Sample : List Nat :=
  [0x30, 0x82, 0x02, 0x5e, 0x02, 0x01, 0x00, 0x02, 0x82, 0x01, 0x01, 0x00, 0xc3, 0x5a]

/-- A reachable state with two sealed blocks. -/
def twoBlockState : EventChain :=
  (EventChain.sealBlock libComputeBlockHash
    (((EventChain.sealBlock libComputeBlockHash oneEventState).1).addEvent 1050
      (str "keyup"))).1

def c3Sign : List Nat → List Nat := fun _ => [1, 2, 3]

def c3Payload : Payload := ⟨str "alice", 1, 1, str "d0", [], 100⟩

def c3Eh : Str := str "eyJhbGciOiJSUzI1NiIsInR5cCI6IkpXVCJ9"

def c3Ep : Str :=
  str "eyJzdWJqZWN0IjoiYWxpY2UiLCJzZXNzaW9uSW5kZXgiOjEsInJlcCI6MSwiZG9jdW1lbnRfaGFzaCI6ImQwIiwiY2hhaW4iOltdLCJpYXQiOjEwMH0"

def c3Token : Str :=
  (c3Eh ++ '.' :: c3Ep) ++ '.' :: str "AQID"

/-- A payload whose subject contains U+3042, a code point above U+00FF. -/
def badPayload : Payload := ⟨str "あ", 1, 1, str "d0", [], 100⟩

/-! ## Helper lemmas: base64url output is dot-free and splitting recovers it -/

theorem enc64_mem (n : Nat) : enc64 n ∈ b64Tbl := by
  unfold enc64
  by_cases h : n < b64Tbl.length
  · rw [List.getD_eq_getElem _ _ h]
    exact List.getElem_mem h
  · rw [List.getD_eq_default _ _ (Nat.le_of_not_lt h)]
    decide

theorem base64Encode_mem : ∀ bs : List Nat, ∀ c ∈ base64Encode bs, c ∈ b64Tbl ∨ c = '='
  | [] => by simp [base64Encode]
  | [a] => by
      intro c hc
      simp only [base64Encode, List.mem_cons, List.not_mem_nil, or_false] at hc
      rcases hc with h | h | h | h <;> subst h
      · exact Or.inl (enc64_mem _)
      · exact Or.inl (enc64_mem _)
      · exact Or.inr rfl
      · exact Or.inr rfl
  | [a, b] => by
      intro c hc
      simp only [base64Encode, List.mem_cons, List.not_mem_nil, or_false] at hc
      rcases hc with h | h | h | h <;> subst h
      · exact Or.inl (enc64_mem _)
      · exact Or.inl (enc64_mem _)
      · exact Or.inl (enc64_mem _)
      · exact Or.inr rfl
  | a :: b :: d :: rest => by
      intro c hc
      simp only [base64Encode, List.mem_cons] at hc
      rcases hc with h | h | h | h | h
      · exact h ▸ Or.inl (enc64_mem _)
      · exact h ▸ Or.inl (enc64_mem _)
      · exact h ▸ Or.inl (enc64_mem _)
      · exact h ▸ Or.inl (enc64_mem _)
      · exact base64Encode_mem rest c h

theorem mem_of_mem_stripEq {c : Char} {s : Str} (h : c ∈ stripEq s) : c ∈ s := by
  unfold stripEq at h
  rw [List.mem_reverse] at h
  have := (List.dropWhile_sublist (fun x => x = '=') (l := s.reverse)).subset h
  rwa [List.mem_reverse] at this

theorem b64Url_noDot {s : Str} (h : ∀ c ∈ s, c ∈ b64Tbl ∨ c = '=') : '.' ∉ b64Url s := by
  intro hmem
  have hmap : '.' ∈ s.map urlSafeChar := mem_of_mem_stripEq hmem
  rw [List.mem_map] at hmap
  obtain ⟨a, ha, hae⟩ := hmap
  rcases h a ha with hTbl | hEq
  · unfold urlSafeChar at hae
    by_cases h1 : a = '+'
    · simp [h1] at hae
    · by_cases h2 : a = '/'
      · simp [h1, h2] at hae
      · simp only [h1, h2, if_false] at hae
        subst hae
        revert hTbl
        decide
  · subst hEq
    simp [urlSafeChar] at hae

theorem b64uBytes_noDot (bs : List Nat) : '.' ∉ b64uBytes bs :=
  b64Url_noDot (base64Encode_mem bs)

theorem libB64uStr_noDot {s r : Str} (h : libB64uStr s = .ok r) : '.' ∉ r := by
  unfold libB64uStr btoa at h
  by_cases hall : s.all (fun c => c.toNat ≤ 255)
  · simp only [hall, if_pos, Except.map] at h
    cases h
    exact b64Url_noDot (base64Encode_mem _)
  · simp [hall, Except.map] at h

theorem workerB64uStr_noDot (s : Str) : '.' ∉ workerB64uStr s :=
  b64Url_noDot (base64Encode_mem _)

theorem jsSplit_no_sep {sep : Char} : ∀ s : Str, (∀ c ∈ s, c ≠ sep) → jsSplit sep s = [s]
  | [], _ => rfl
  | c :: rest, h => by
      have hc : c ≠ sep := h c (List.mem_cons_self c rest)
      have ih := jsSplit_no_sep rest (fun x hx => h x (List.mem_cons_of_mem c hx))
      simp [jsSplit, hc, ih]

theorem jsSplit_append {sep : Char} :
    ∀ a r : Str, (∀ c ∈ a, c ≠ sep) → jsSplit sep (a ++ sep :: r) = a :: jsSplit sep r
  | [], r, _ => by simp [jsSplit]
  | c :: rest, r, h => by
      have hc : c ≠ sep := h c (List.mem_cons_self c rest)
      have ih := jsSplit_append rest r (fun x hx => h x (List.mem_cons_of_mem c hx))
      simp [jsSplit, hc, ih]

/-! ## Chain linkage -/

theorem linkedFrom_append :
    ∀ (bs : List Block) (ph : Str) (b : Block), linkedFrom ph bs →
      b.prev_hash = chainTip ph bs →
      linkedFrom ph (bs ++ [b]) ∧ chainTip ph (bs ++ [b]) = b.block_hash
  | [], _, _, _, hb => ⟨⟨hb, trivial⟩, rfl⟩
  | x :: rest, ph, b, hl, hb => by
      obtain ⟨hx, hr⟩ := hl
      have ih := linkedFrom_append rest x.block_hash b hr hb
      exact ⟨⟨hx, ih.1⟩, ih.2⟩

theorem linkedFrom_head : ∀ {ph : Str} {bs : List Block}, linkedFrom ph bs →
    ∀ b0, bs.head? = some b0 → b0.prev_hash = ph := by
  intro ph bs
  cases bs with
  | nil => intro _ b0 h; cases h
  | cons x rest =>
      intro hl b0 h
      cases h
      exact hl.1

theorem linkedFrom_getD :
    ∀ (bs : List Block) (ph : Str), linkedFrom ph bs →
      ∀ i, i + 1 < bs.length →
        (bs.getD (i + 1) dBlock).prev_hash = (bs.getD i dBlock).block_hash
  | [], _, _, i, h => by simp at h
  | x :: rest, ph, hl, i, h => by
      obtain ⟨_, hr⟩ := hl
      cases i with
      | zero =>
          cases rest with
          | nil => simp at h
          | cons y t => exact hr.1
      | succ j =>
          have hlen : j + 1 < rest.length := by
            simpa using Nat.lt_of_succ_lt_succ h
          simpa using linkedFrom_getD rest x.block_hash hr j hlen

theorem sealBlock_inv {hashFn : Str → List KEvent → Str} {c : EventChain}
    (ih : chainInv c) : chainInv (EventChain.sealBlock hashFn c).1 := by
  unfold EventChain.sealBlock
  by_cases hce : c.currentEvents = []
  · simpa [hce] using ih
  · simp only [hce, if_neg, if_false]
    have happ := linkedFrom_append c.blocks (str "GENESIS")
      ⟨c.currentEvents, c.previousHash, hashFn c.previousHash c.currentEvents⟩
      ih.1 ih.2
    exact ⟨happ.1, happ.2.symm⟩

theorem reachable_chainInv (hashFn : Str → List KEvent → Str) (c : EventChain)
    (h : Reachable hashFn c) : chainInv c := by
  induction h with
  | initStep => exact ⟨trivial, rfl⟩
  | addStep ts ty _ ih => simpa [EventChain.addEvent, chainInv] using ih
  | sealStep _ ih => exact sealBlock_inv ih
  | finStep _ ih => exact sealBlock_inv ih
  | resetStep _ _ => exact ⟨trivial, rfl⟩

/-! ## Event preservation under sealing -/

theorem sealBlock_allEvents (hashFn : Str → List KEvent → Str) (c : EventChain) :
    (EventChain.sealBlock hashFn c).1.allEvents = c.allEvents := by
  unfold EventChain.sealBlock EventChain.allEvents
  by_cases hce : c.currentEvents = []
  · simp [hce]
  · simp [hce]

theorem sealBlock_eventCount (hashFn : Str → List KEvent → Str) (c : EventChain) :
    (EventChain.sealBlock hashFn c).1.eventCount = c.eventCount := by
  unfold EventChain.sealBlock
  by_cases hce : c.currentEvents = []
  · simp [hce]
  · simp [hce]

/-! ## Pairwise linkage, as the verifier checks it -/

theorem pairwiseLinked_tail {b : Block} {rest : List Block}
    (h : pairwiseLinked (b :: rest)) : pairwiseLinked rest := by
  cases rest with
  | nil => trivial
  | cons x t => exact h.2

theorem getD_imp_pairwiseLinked :
    ∀ bs : List Block,
      (∀ i, i + 1 < bs.length →
        (bs.getD (i + 1) dBlock).prev_hash = (bs.getD i dBlock).block_hash) →
      pairwiseLinked bs
  | [], _ => trivial
  | [_], _ => trivial
  | a :: b :: rest, h => by
      refine ⟨by simpa using h 0 (by simp), ?_⟩
      refine getD_imp_pairwiseLinked (b :: rest) (fun i hi => ?_)
      simpa using h (i + 1) (by simpa using Nat.succ_lt_succ hi)

theorem verifyBlocksFrom_true :
    ∀ (bs : List Block) (prevOpt : Option Str),
      (∀ b ∈ bs, verifierComputeBlockHash b.prev_hash b.events = b.block_hash) →
      pairwiseLinked bs →
      (∀ ph, prevOpt = some ph → ∀ b0, bs.head? = some b0 → b0.prev_hash = ph) →
      verifyBlocksFrom prevOpt bs = true
  | [], prevOpt, _, _, _ => by cases prevOpt <;> rfl
  | b :: rest, prevOpt, hh, hp, hhead => by
      have hb := hh b (List.mem_cons_self b rest)
      have hhrest : ∀ x ∈ rest, verifierComputeBlockHash x.prev_hash x.events = x.block_hash :=
        fun x hx => hh x (List.mem_cons_of_mem b hx)
      have hheadrest : ∀ ph, some b.block_hash = some ph →
          ∀ b0, rest.head? = some b0 → b0.prev_hash = ph := by
        intro ph hph b0 hb0
        cases hph
        cases rest with
        | nil => cases hb0
        | cons x t =>
            cases hb0
            exact hp.1
      have ih := verifyBlocksFrom_true rest (some b.block_hash) hhrest
        (pairwiseLinked_tail hp) hheadrest
      cases prevOpt with
      | none => simp [verifyBlocksFrom, hb, ih]
      | some ph =>
          have hbp : b.prev_hash = ph := hhead ph rfl b rfl
          subst hbp
          simp [verifyBlocksFrom, hb, ih]

/-! ## C1 -/

/-- C1: the claim says the canonical hash-input serialization — a single
space after each comma and each colon — is used by `computeBlockHash` both
when `sealBlock` builds a block and when the verifier recomputes it, so all
implementations produce identical hash-input bytes.  On the code this fails:
the background worker's `computeBlockHash` does emit the spaced form, but the
library `computeBlockHash` and the Node verifier serialize the events with
plain compact `JSON.stringify`, so at `prev_hash = "GENESIS"` and the single
event `[1000, "keydown"]` the worker's hash-input bytes differ from the
library's, and the verifier's input (equal to the library's) has no spaces. -/
theorem c1_hash_input_divergence :
    pythonJsonStringify [⟨1000, str "keydown"⟩] = str "[[1000, \"keydown\"]]" ∧
    jsStringifyEvents [⟨1000, str "keydown"⟩] = str "[[1000,\"keydown\"]]" ∧
    workerBlockHashInput (str "GENESIS") [⟨1000, str "keydown"⟩] ≠
      libBlockHashInput (str "GENESIS") [⟨1000, str "keydown"⟩] ∧
    verifierBlockHashInput (str "GENESIS") [⟨1000, str "keydown"⟩] =
      libBlockHashInput (str "GENESIS") [⟨1000, str "keydown"⟩] := by
  refine ⟨by decide, by decide, by decide, by decide⟩

/-! ## C2 -/

/-- C2, counterexample: the verifier's chain-integrity check accepts a
non-empty chain whose first block's `prev_hash` is not `"GENESIS"`, and with
a valid signature the overall verdict still passes — there is no
`InvalidGenesis` rejection in the code. -/
theorem c2_counterexample :
    c2Block.prev_hash ≠ str "GENESIS" ∧
    verifyBlockchain [c2Block] = true ∧
    verificationPassed true [c2Block] = true := by
  refine ⟨by decide, by decide, by decide⟩

/-- C2, amended: the verifier's blockchain loop checks only that each block's
hash recomputes and that every block after the first links to its
predecessor; it never examines the first block's `prev_hash`, so every chain
satisfying those two conditions is accepted no matter what the first
`prev_hash` is. -/
theorem c2_no_genesis_check (chain : List Block)
    (hashesOk : ∀ b ∈ chain, verifierComputeBlockHash b.prev_hash b.events = b.block_hash)
    (linksOk : ∀ i, i + 1 < chain.length →
      (chain.getD (i + 1) dBlock).prev_hash = (chain.getD i dBlock).block_hash) :
    verifyBlockchain chain = true :=
  verifyBlocksFrom_true chain none hashesOk (getD_imp_pairwiseLinked chain linksOk)
    (fun _ h => by cases h)

/-- Witness for `c2_no_genesis_check` at the concrete one-block chain. -/
theorem c2_no_genesis_check_witness : verifyBlockchain [c2Block] = true :=
  c2_no_genesis_check [c2Block] (by decide) (fun i hi => absurd hi (by simp))

/-! ## C5 -/

/-- C5: with the private key present, sealing a session whose finalized chain
has zero blocks (no sealed block, no pending event) fails with the
empty-chain error of `sealDocument` and yields no token. -/
theorem c5_empty_chain_error (hasKey keyOk : Bool) (sign : List Nat → Except Str (List Nat))
    (doc subject : Str) (sessionIndex rep iat : Nat) (c : EventChain)
    (hkey : hasKey = true) (hblocks : c.blocks = []) (hpending : c.currentEvents = []) :
    (sealDocument hasKey keyOk sign doc subject sessionIndex rep iat c).1 =
      .error (str "No keystroke events recorded. Please type something first.") := by
  subst hkey
  unfold sealDocument
  simp [EventChain.sealBlock, EventChain.getChain, hpending, hblocks]

/-- Witness for `c5_empty_chain_error` on the freshly constructed chain. -/
theorem c5_empty_chain_error_witness :
    (sealDocument true true (fun _ => .ok []) [] [] 0 0 0 EventChain.init).1 =
      .error (str "No keystroke events recorded. Please type something first.") :=
  c5_empty_chain_error true true (fun _ => .ok []) [] [] 0 0 0 EventChain.init rfl rfl rfl

/-! ## C6 -/

/-- C6: `sealBlock` on a state with no pending events is a no-op that emits
no block; immediately resealing after any seal emits nothing either (the
pending list is empty after a seal), so two consecutive seals append exactly
one block when events were pending and zero when none were. -/
theorem c6_idempotent_seal (hashFn : Str → List KEvent → Str) (c : EventChain) :
    (c.currentEvents = [] → EventChain.sealBlock hashFn c = (c, none)) ∧
    (EventChain.sealBlock hashFn (EventChain.sealBlock hashFn c).1 =
      ((EventChain.sealBlock hashFn c).1, none)) ∧
    (c.currentEvents ≠ [] →
      (EventChain.sealBlock hashFn c).1.blocks.length = c.blocks.length + 1) := by
  by_cases hce : c.currentEvents = [] <;>
    simp [EventChain.sealBlock, hce]

/-- Witness for `c6_idempotent_seal`: on a state with one pending event the
first seal appends exactly one block, and the state has pending events. -/
theorem c6_idempotent_seal_witness :
    oneEventState.currentEvents ≠ [] ∧
    (EventChain.sealBlock libComputeBlockHash oneEventState).1.blocks.length =
      oneEventState.blocks.length + 1 :=
  ⟨by decide, (c6_idempotent_seal libComputeBlockHash oneEventState).2.2 (by decide)⟩

/-! ## C7 -/

/-- C7, counterexample: the library `importPrivateKey` does not fail on a
PKCS#1-form key (one the platform's PKCS#8 import rejects); it silently
wraps the bytes in a PKCS#8 container and succeeds, so the signer proceeds
with the repaired key. -/
theorem c7_counterexample :
    isPkcs8Rsa pkcs1Sample = false ∧
    libImportPrivateKey isPkcs8Rsa pkcs1Sample = .ok (wrapPKCS1inPKCS8 pkcs1Sample) := by
  refine ⟨by decide, by rfl⟩

/-- C7, amended: the two import implementations diverge.  For any key whose
raw bytes the platform rejects as PKCS#8 but whose wrapped form it accepts —
a PKCS#1 key — the background worker's `importPrivateKey` fails with the
key-format error, while the library `importPrivateKey` silently wraps it in
a PKCS#8 container and returns the repaired key. -/
theorem c7_import_policies (importOk : List Nat → Bool) (bytes : List Nat)
    (hraw : importOk bytes = false) (hwrap : importOk (wrapPKCS1inPKCS8 bytes) = true) :
    workerImportPrivateKey importOk bytes =
      .error (str "Invalid private key format. Please use PKCS8 format.") ∧
    libImportPrivateKey importOk bytes = .ok (wrapPKCS1inPKCS8 bytes) := by
  unfold workerImportPrivateKey libImportPrivateKey
  simp [hraw, hwrap]

/-- Witness for `c7_import_policies` at the concrete PKCS#1 byte sample. -/
theorem c7_import_policies_witness :
    workerImportPrivateKey isPkcs8Rsa pkcs1Sample =
      .error (str "Invalid private key format. Please use PKCS8 format.") ∧
    libImportPrivateKey isPkcs8Rsa pkcs1Sample = .ok (wrapPKCS1inPKCS8 pkcs1Sample) :=
  c7_import_policies isPkcs8Rsa pkcs1Sample (by decide) (by decide)

/-! ## C9 -/

/-- C9, counterexample: the round trip is not the identity on every state —
restoring a serialized state whose `previousHash` is the empty string
rewrites it to `"GENESIS"`, because the empty string is falsy in the
`data.previousHash || "GENESIS"` default. -/
theorem c9_counterexample :
    EventChain.fromJSON (EventChain.toJSON ⟨[], [], [], 0⟩) ≠
      (⟨[], [], [], 0⟩ : EventChain) := by
  decide

/-- C9, amended: for every chain state whose `previousHash` is non-empty —
which includes every state the accumulator itself produces, since the field
is always `"GENESIS"` or a hex digest — `fromJSON (toJSON c)` restores
`blocks`, `currentEvents`, `previousHash` and `eventCount` identically. -/
theorem c9_roundtrip (c : EventChain) (h : c.previousHash ≠ []) :
    EventChain.fromJSON (EventChain.toJSON c) = c := by
  cases c with
  | mk blocks currentEvents previousHash eventCount =>
      replace h : previousHash ≠ [] := h
      simp [EventChain.toJSON, EventChain.fromJSON, h]

/-! ## C4 -/

/-- C4: every chain state reachable from the constructor state by any
sequence of `addEvent`, `sealBlock`, `finalize` and `reset` satisfies the
linkage invariant: the first block, if any, has `prev_hash = "GENESIS"`, and
every later block's `prev_hash` equals its predecessor's `block_hash`. -/
theorem c4_reachable_linkage (hashFn : Str → List KEvent → Str) (c : EventChain)
    (h : Reachable hashFn c) :
    (∀ b0, c.blocks.head? = some b0 → b0.prev_hash = str "GENESIS") ∧
    (∀ i, i + 1 < c.blocks.length →
      (c.blocks.getD (i + 1) dBlock).prev_hash = (c.blocks.getD i dBlock).block_hash) := by
  have hinv := reachable_chainInv hashFn c h
  exact ⟨linkedFrom_head hinv.1, linkedFrom_getD c.blocks (str "GENESIS") hinv.1⟩

/-- Witness for `c4_reachable_linkage`: in the concrete reachable two-block
state, the second block links to the first block's hash. -/
theorem c4_reachable_linkage_witness :
    (twoBlockState.blocks.getD 1 dBlock).prev_hash =
      (twoBlockState.blocks.getD 0 dBlock).block_hash :=
  (c4_reachable_linkage libComputeBlockHash twoBlockState
    (Reachable.sealStep (Reachable.addStep 1050 (str "keyup")
      (Reachable.sealStep (Reachable.addStep 1000 (str "keydown")
        Reachable.initStep))))).2 0 (by decide)

/-! ## C8 -/

/-- C8: every failure of the seal-and-sign flow — missing key, empty chain,
key import or signing failure inside `createJWS` — is returned to the caller
while the chain keeps every accumulated event (sealed blocks plus pending
events, order preserved) and its event count; the chain is reset exactly
when a token is produced. -/
theorem c8_seal_errors_retryable (hasKey keyOk : Bool)
    (sign : List Nat → Except Str (List Nat)) (doc subject : Str)
    (sessionIndex rep iat : Nat) (c : EventChain) :
    (∀ e, (sealDocument hasKey keyOk sign doc subject sessionIndex rep iat c).1 = .error e →
      (sealDocument hasKey keyOk sign doc subject sessionIndex rep iat c).2.allEvents =
        c.allEvents ∧
      (sealDocument hasKey keyOk sign doc subject sessionIndex rep iat c).2.eventCount =
        c.eventCount) ∧
    (∀ r, (sealDocument hasKey keyOk sign doc subject sessionIndex rep iat c).1 = .ok r →
      (sealDocument hasKey keyOk sign doc subject sessionIndex rep iat c).2 =
        EventChain.init) := by
  cases hasKey with
  | false =>
      refine ⟨fun e _ => ⟨rfl, rfl⟩, fun r hr => ?_⟩
      simp [sealDocument] at hr
  | true =>
      by_cases hch : ((EventChain.sealBlock workerComputeBlockHash c).1).getChain = []
      · refine ⟨fun e _ => ?_, fun r hr => ?_⟩
        · have h2 : (sealDocument true keyOk sign doc subject sessionIndex rep iat c).2 =
              (EventChain.sealBlock workerComputeBlockHash c).1 := by
            simp [sealDocument, hch]
          rw [h2]
          exact ⟨sealBlock_allEvents _ _, sealBlock_eventCount _ _⟩
        · simp [sealDocument, hch] at hr
      · cases hjws : workerCreateJWS keyOk sign
            ⟨subject, sessionIndex, rep, sha256HexOfStr doc,
              ((EventChain.sealBlock workerComputeBlockHash c).1).getChain, iat⟩ with
        | error e0 =>
            refine ⟨fun e _ => ?_, fun r hr => ?_⟩
            · have h2 : (sealDocument true keyOk sign doc subject sessionIndex rep iat c).2 =
                  (EventChain.sealBlock workerComputeBlockHash c).1 := by
                simp [sealDocument, hch, hjws]
              rw [h2]
              exact ⟨sealBlock_allEvents _ _, sealBlock_eventCount _ _⟩
            · simp [sealDocument, hch, hjws] at hr
        | ok t =>
            refine ⟨fun e he => ?_, fun r _ => ?_⟩
            · simp [sealDocument, hch, hjws] at he
            · simp [sealDocument, hch, hjws, EventChain.reset]

/-- Witness for `c8_seal_errors_retryable`: with the key missing, sealing the
one-pending-event session fails and the returned chain still carries the
event and its count. -/
theorem c8_seal_errors_retryable_witness :
    (sealDocument false true (fun _ => .ok []) [] [] 0 0 0 oneEventState).2.allEvents =
      oneEventState.allEvents ∧
    (sealDocument false true (fun _ => .ok []) [] [] 0 0 0 oneEventState).2.eventCount =
      oneEventState.eventCount :=
  (c8_seal_errors_retryable false true (fun _ => .ok []) [] [] 0 0 0 oneEventState).1
    (str "Private key not found. Please ensure keys/private.pem exists.") (by rfl)

/-! ## C3 -/

/-- C3: a token produced by the library `createJWS` is exactly
`base64url(header) + "." + base64url(payload) + "." + base64url(signature)`
where the signature bytes are computed over the encoded text
`base64url(header) + "." + base64url(payload)`; splitting the token on `.`
— what the verifier does with the as-received token — recovers the three
segments exactly, and the signing input the verifier recomputes from the
first two as-received segments is byte-identical to the signed text, with no
re-serialization of the decoded payload involved. -/
theorem c3_signing_input (sign : List Nat → List Nat) (p : Payload) (eh ep token : Str)
    (heh : libB64uStr headerJson = .ok eh)
    (hep : libB64uStr (payloadJson p) = .ok ep)
    (htok : libCreateJWS sign p = .ok token) :
    token = (eh ++ '.' :: ep) ++ '.' :: b64uBytes (sign (utf8 (eh ++ '.' :: ep))) ∧
    jsSplit '.' token = [eh, ep, b64uBytes (sign (utf8 (eh ++ '.' :: ep)))] ∧
    verifierSigningInput (jsSplit '.' token) = eh ++ '.' :: ep := by
  unfold libCreateJWS at htok
  rw [heh, hep] at htok
  have h2 : (eh ++ '.' :: ep) ++ '.' :: b64uBytes (sign (utf8 (eh ++ '.' :: ep))) = token :=
    Except.ok.inj htok
  subst h2
  have hehD : ∀ ch ∈ eh, ch ≠ '.' :=
    fun ch hc he => libB64uStr_noDot heh (he ▸ hc)
  have hepD : ∀ ch ∈ ep, ch ≠ '.' :=
    fun ch hc he => libB64uStr_noDot hep (he ▸ hc)
  have hesD : ∀ ch ∈ b64uBytes (sign (utf8 (eh ++ '.' :: ep))), ch ≠ '.' :=
    fun ch hc he => b64uBytes_noDot _ (he ▸ hc)
  have hform : (eh ++ '.' :: ep) ++ '.' :: b64uBytes (sign (utf8 (eh ++ '.' :: ep))) =
      eh ++ '.' :: (ep ++ '.' :: b64uBytes (sign (utf8 (eh ++ '.' :: ep)))) := by
    simp
  have hsplit : jsSplit '.' ((eh ++ '.' :: ep) ++ '.' ::
      b64uBytes (sign (utf8 (eh ++ '.' :: ep)))) =
      [eh, ep, b64uBytes (sign (utf8 (eh ++ '.' :: ep)))] := by
    rw [hform, jsSplit_append eh _ hehD, jsSplit_append ep _ hepD, jsSplit_no_sep _ hesD]
  refine ⟨rfl, hsplit, ?_⟩
  rw [hsplit]
  rfl

/-- Witness for `c3_signing_input` at a concrete payload and signature
function: the verifier's recomputed signing input over the concrete token is
the two as-received encoded segments joined by a dot. -/
theorem c3_signing_input_witness :
    verifierSigningInput (jsSplit '.' c3Token) = c3Eh ++ '.' :: c3Ep :=
  (c3_signing_input c3Sign c3Payload c3Eh c3Ep c3Token (by rfl) (by rfl) (by rfl)).2.2

/-! ## C10 -/

/-- C10: the library token encoder is total exactly over Latin-1 text.  For
every payload whose JSON serialization stays at or below code point 255 the
library `createJWS` succeeds; on `badPayload` (subject U+3042) it throws —
`btoa` rejects the character — while the background worker's variant UTF-8
encodes the string first and produces a token from the same payload. -/
theorem c10_latin1_totality (sign : List Nat → List Nat) :
    (∀ p : Payload, (∀ ch ∈ payloadJson p, ch.toNat ≤ 255) →
      libCreateJWS sign p ≠ .error ()) ∧
    libCreateJWS sign badPayload = .error () ∧
    workerCreateJWS true (fun bs => .ok (sign bs)) badPayload =
      .ok ((workerB64uStr headerJson ++ '.' :: workerB64uStr (payloadJson badPayload)) ++
        '.' :: b64uBytes (sign (utf8 (workerB64uStr headerJson ++ '.' ::
          workerB64uStr (payloadJson badPayload))))) := by
  refine ⟨?_, by rfl, by rfl⟩
  intro p hp hbad
  have hall : (payloadJson p).all (fun ch => ch.toNat ≤ 255) = true := by
    rw [List.all_eq_true]
    intro ch hch
    exact decide_eq_true (hp ch hch)
  have hh : libB64uStr headerJson =
      .ok (str "eyJhbGciOiJSUzI1NiIsInR5cCI6IkpXVCJ9") := by rfl
  have hpj : libB64uStr (payloadJson p) =
      .ok (b64Url (base64Encode ((payloadJson p).map Char.toNat))) := by
    unfold libB64uStr btoa
    rw [hall]
    rfl
  unfold libCreateJWS at hbad
  rw [hh, hpj] at hbad
  exact Except.noConfusion hbad

/-- Witness for `c10_latin1_totality` at the all-ASCII payload. -/
theorem c10_latin1_totality_witness :
    libCreateJWS c3Sign c3Payload ≠ .error () :=
  (c10_latin1_totality c3Sign).1 c3Payload (by decide)

/-- Witness for `c9_roundtrip` at the one-pending-event state. -/
theorem c9_roundtrip_witness :
    EventChain.fromJSON (EventChain.toJSON oneEventState) = oneEventState :=
  c9_roundtrip oneEventState (by decide)
